import Mathlib

/-!
Verification development for a single-resource person-record HTTP service
(`src/backend/main.py`).  The service exposes five handlers over one
SQLAlchemy-backed table `people_records`:

* `retrieve_person_record`  (GET /persons/{identifier})
* `retrieve_all_persons`    (GET /persons)
* `add_person_record`       (POST /persons)
* `modify_person_record`    (PATCH /persons/{identifier})
* `remove_person_record`    (DELETE /persons/{identifier})

The embedding models the relational table as an insertion-ordered list of
rows plus the auto-increment sequence (`nextId`), matching the PostgreSQL
SERIAL primary key of the production configuration: the sequence only ever
moves forward and is not rewound by deletes or rollbacks.  Each handler is
a pure function from the request and the store to the new store and an HTTP
response.  The per-request session of the source commits only at the
explicit `database.commit()` call sites; a handler that returns early
(e.g. the invalid-field branch of `modify_person_record`) leaves the
session uncommitted and the session close rolls it back, so the modelled
store is returned unchanged on those paths.
-/

/-- A JSON-ish value as it appears in a PATCH payload dict: the source
declares the PATCH body as a plain `dict`, so values are arbitrary; we model
the two primitive shapes the record's columns use. -/
inductive Value where
  | int (n : Int) : Value
  | str (s : String) : Value
deriving DecidableEq, Repr

/-- One row of the `people_records` table (class `PersonRecord` in the
source): columns `id`, `name`, `age`, `address`, `work`.  Fields hold
`Value` because the PATCH handler assigns unvalidated payload values via
`setattr`; the test configuration (SQLite) stores such values verbatim. -/
@[ext]
structure PersonRecord where
  id : Value
  name : Value
  age : Value
  address : Value
  work : Value
deriving DecidableEq, Repr

/-- The relational store: rows in insertion order plus the auto-increment
sequence for the primary key.  PostgreSQL SERIAL sequences start at 1. -/
structure Store where
  records : List PersonRecord
  nextId : Int
deriving DecidableEq, Repr

/-- The empty store at application start (`Base.metadata.create_all`):
no rows, the id sequence at 1. -/
def emptyStore : Store := { records := [], nextId := 1 }

/-- The validated POST body (pydantic class `PersonCreationData`, i.e.
`PersonInputData`): four required fields with primitive type checks and
no further constraints (in particular no non-emptiness check on `name`). -/
structure PersonCreationData where
  name : String
  age : Int
  address : String
  work : String
deriving DecidableEq, Repr

/-- Response bodies the handlers can produce.  `detail s` is FastAPI's
serialization of a raised `HTTPException`, i.e. the JSON object
`\x7b"detail": s\x7d`; `errorText s` is the body built by
`create_error_response` from `ErrorMessageData`, i.e. the JSON object
`\x7b"error_text": s\x7d`.  These are distinct wire shapes. -/
inductive Body where
  | empty : Body
  | record (r : PersonRecord) : Body
  | records (rs : List PersonRecord) : Body
  | detail (s : String) : Body
  | errorText (s : String) : Body
deriving DecidableEq, Repr

/-- An HTTP response: status code, body, and optional Location header. -/
structure HttpResponse where
  status : Nat
  body : Body
  location : Option String := none
deriving DecidableEq, Repr

/-- The helper `create_error_response(error_message, http_code)`:
a JSONResponse with body `\x7b"error_text": error_message\x7d`. -/
def create_error_response (error_message : String) (http_code : Nat) : HttpResponse :=
  { status := http_code, body := Body.errorText error_message }

/-- `database.query(PersonRecord).filter(PersonRecord.id == identifier).first()`:
the first row whose `id` column equals the identifier. -/
def queryFirstById (records : List PersonRecord) (identifier : Int) : Option PersonRecord :=
  records.find? (fun r => r.id == Value.int identifier)

/-- `fetch_person_record(identifier, database_session)`: look the row up,
raising `HTTPException(404, "Record not found")` when absent. -/
def fetch_person_record (identifier : Int) (records : List PersonRecord) :
    Except HttpResponse PersonRecord :=
  match queryFirstById records identifier with
  | none => Except.error { status := 404, body := Body.detail "Record not found" }
  | some r => Except.ok r

/-- GET /persons/{identifier} (`retrieve_person_record`): returns the row
serialized through `PersonOutputData`, or the 404 error.  Read-only.
The `response_model` validation itself is not modelled: on a row whose
column holds a type-mismatched value (possible only through a PATCH with a
mistyped payload value) the real service fails serialization with a 500
where this embedding still returns the row, so success-path theorems that
re-fetch a patched row carry a `wellTypedRecord`/`wellTypedEntry`
hypothesis confining them to the domain where the two agree. -/
def retrieve_person_record (identifier : Int) (s : Store) : HttpResponse :=
  match fetch_person_record identifier s.records with
  | Except.error e => e
  | Except.ok r => { status := 200, body := Body.record r }

/-- GET /persons (`retrieve_all_persons`): `database.query(PersonRecord).all()`,
all rows in table order. -/
def retrieve_all_persons (s : Store) : HttpResponse :=
  { status := 200, body := Body.records s.records }

/-- The row built by `PersonRecord(**person_input.model_dump())` once the
store has assigned it the primary key `n`. -/
def mkRecord (p : PersonCreationData) (n : Int) : PersonRecord :=
  { id := Value.int n, name := Value.str p.name, age := Value.int p.age,
    address := Value.str p.address, work := Value.str p.work }

/-- POST /persons (`add_person_record`): insert the validated body, commit,
and answer 201 with an empty body and a `Location: /persons/{id}` header,
where the id is the one the sequence assigned. -/
def add_person_record (person_input : PersonCreationData) (s : Store) :
    Store × HttpResponse :=
  let newId := s.nextId
  ({ records := s.records ++ [mkRecord person_input newId], nextId := s.nextId + 1 },
   { status := 201, body := Body.empty,
     location := some ("/persons/" ++ toString newId) })

/-- The column names of `PersonRecord` — the fields of the record in the
data model (spec section 3 and the JSON record shape). -/
def personColumns : List String := ["id", "name", "age", "address", "work"]

/-- Non-column attributes present on a `PersonRecord` instance at runtime:
the declarative-base class attributes `metadata` and `registry` and the
class attribute `__tablename__`.  (A Python object also exposes dunder
members such as `__init__`; we include the attributes the service's
behaviour turns on.) -/
def personOrmAttrs : List String := ["metadata", "registry", "__tablename__"]

/-- `hasattr(person_record, attribute_name)`: true for the columns and for
the non-column ORM attributes alike. -/
def hasattrPerson (attribute_name : String) : Bool :=
  personColumns.contains attribute_name || personOrmAttrs.contains attribute_name

/-- `setattr(person_record, key, v)` as it affects the persisted row: a
column attribute overwrites the corresponding field; a non-column attribute
becomes an instance attribute that shadows the class attribute and is never
written to the table, so the row is unchanged. -/
def setAttr (r : PersonRecord) (key : String) (v : Value) : PersonRecord :=
  if key = "id" then { r with id := v }
  else if key = "name" then { r with name := v }
  else if key = "age" then { r with age := v }
  else if key = "address" then { r with address := v }
  else if key = "work" then { r with work := v }
  else r

/-- The `for attribute_name, attribute_value in update_data.items()` loop of
`modify_person_record`: on the first key failing `hasattr` it returns the
400 `Invalid field provided` response (the uncommitted `setattr`s already
performed are rolled back when the session closes, so they are dropped
here); otherwise every value is assigned in payload order. -/
def applyUpdates (r : PersonRecord) : List (String × Value) → Except HttpResponse PersonRecord
  | [] => Except.ok r
  | (attribute_name, attribute_value) :: rest =>
    if hasattrPerson attribute_name then
      applyUpdates (setAttr r attribute_name attribute_value) rest
    else
      Except.error (create_error_response "Invalid field provided" 400)

/-- `database.commit()` after mutating the fetched ORM object: the UPDATE
hits the row that was fetched, i.e. the first row whose id matched the
request identifier; every other row keeps its position and contents. -/
def replaceFirstById (records : List PersonRecord) (identifier : Int)
    (newRec : PersonRecord) : List PersonRecord :=
  match records with
  | [] => []
  | r :: rest =>
    if r.id == Value.int identifier then newRec :: rest
    else r :: replaceFirstById rest identifier newRec

/-- `database.delete(person_data)` + commit: removes the fetched row, the
first one whose id matched. -/
def removeFirstById (records : List PersonRecord) (identifier : Int) :
    List PersonRecord :=
  match records with
  | [] => []
  | r :: rest =>
    if r.id == Value.int identifier then rest
    else r :: removeFirstById rest identifier

/-- PATCH /persons/{identifier} (`modify_person_record`): fetch (404 when
absent), run the update loop (400 with no store change on an invalid
attribute name), else commit, refresh, and return the updated row.
The success path is faithful on payloads whose values match the named
columns' declared SQL types (`wellTypedEntry`): on a mistyped value such
as a string for `age` the real service answers 500 instead — in the
production configuration the commit fails PostgreSQL's type check and the
field is never set, in the SQLite test configuration the committed row
then fails the route's `response_model=PersonOutputData` serialization —
so the success-path theorem about this handler carries well-typedness
hypotheses restricting it to that domain. -/
def modify_person_record (identifier : Int) (update_data : List (String × Value))
    (s : Store) : Store × HttpResponse :=
  match fetch_person_record identifier s.records with
  | Except.error e => (s, e)
  | Except.ok person_record =>
    match applyUpdates person_record update_data with
    | Except.error e => (s, e)
    | Except.ok updated =>
      ({ s with records := replaceFirstById s.records identifier updated },
       { status := 200, body := Body.record updated })

/-- DELETE /persons/{identifier} (`remove_person_record`): fetch (404 when
absent), delete, commit, and answer 204 with no body. -/
def remove_person_record (identifier : Int) (s : Store) : Store × HttpResponse :=
  match fetch_person_record identifier s.records with
  | Except.error e => (s, e)
  | Except.ok _ =>
    ({ s with records := removeFirstById s.records identifier },
     { status := 204, body := Body.empty })

/-- A state-changing request, for reasoning about operation traces (GETs
never change the store and need not appear). -/
inductive Operation where
  | create (p : PersonCreationData) : Operation
  | patch (identifier : Int) (payload : List (String × Value)) : Operation
  | delete (identifier : Int) : Operation
deriving DecidableEq, Repr

/-- The store after serving one state-changing request. -/
def runOp (s : Store) : Operation → Store
  | Operation.create p => (add_person_record p s).1
  | Operation.patch identifier payload => (modify_person_record identifier payload s).1
  | Operation.delete identifier => (remove_person_record identifier s).1

/-- The store after serving a sequence of state-changing requests. -/
def runOps (s : Store) : List Operation → Store
  | [] => s
  | op :: rest => runOps (runOp s op) rest

/-- True when no PATCH payload in the trace contains the key `"id"`
(i.e. no request rewrites a stored primary key). -/
def noIdPatch : List Operation → Bool
  | [] => true
  | Operation.patch _ payload :: rest =>
    decide ("id" ∉ payload.map Prod.fst) && noIdPatch rest
  | _ :: rest => noIdPatch rest

/-- The primary keys handed out by the auto-increment sequence along a
trace, including keys of rows later deleted. -/
def assignedIds (s : Store) : List Operation → List Int
  | [] => []
  | op :: rest =>
    match op with
    | Operation.create _ => s.nextId :: assignedIds (runOp s op) rest
    | _ => assignedIds (runOp s op) rest

/-- A concrete one-row store used by the concrete theorems below: the row
the spec's section-8 scenario creates, with the sequence at 2. -/
def demoRecord : PersonRecord :=
  { id := Value.int 1, name := Value.str "A", age := Value.int 1,
    address := Value.str "x", work := Value.str "y" }

/-- The store holding exactly `demoRecord`. -/
def demoStore : Store := { records := [demoRecord], nextId := 2 }

/-- A two-row store: `demoRecord` plus a second row with id 2. -/
def demoRecord2 : PersonRecord :=
  { id := Value.int 2, name := Value.str "B", age := Value.int 2,
    address := Value.str "u", work := Value.str "v" }

/-- The store holding `demoRecord` and `demoRecord2`. -/
def demoStore2 : Store := { records := [demoRecord, demoRecord2], nextId := 3 }

/-- The pure effect of the update loop when every key passes the check:
each payload entry assigned in order. -/
def updFold (r : PersonRecord) : List (String × Value) → PersonRecord
  | [] => r
  | (k, v) :: rest => updFold (setAttr r k v) rest

/-- The record the claim expects after a valid partial update: exactly the
payload's fields overwritten with the payload's values, every other field
(including the id) kept from the stored record. -/
def patchedRecord (r : PersonRecord) (payload : List (String × Value)) : PersonRecord :=
  { id := r.id,
    name := (List.lookup "name" payload).getD r.name,
    age := (List.lookup "age" payload).getD r.age,
    address := (List.lookup "address" payload).getD r.address,
    work := (List.lookup "work" payload).getD r.work }

/-- True of values of the shape SQLAlchemy's `Integer` columns hold. -/
def isIntVal : Value → Bool
  | Value.int _ => true
  | Value.str _ => false

/-- True of values of the shape SQLAlchemy's `String` columns hold. -/
def isStrVal : Value → Bool
  | Value.str _ => true
  | Value.int _ => false

/-- A payload entry whose value matches the declared SQL type of the data
column it names: `Integer` for `age`, `String` for `name`, `address` and
`work`.  On such entries the production commit's type check and the
route's `response_model` serialization both succeed, which is the domain
on which the embedding's PATCH success path is faithful (see
`modify_person_record`). -/
def wellTypedEntry (kv : String × Value) : Bool :=
  (kv.1 == "age" && isIntVal kv.2) ||
  ((kv.1 == "name" || kv.1 == "address" || kv.1 == "work") && isStrVal kv.2)

/-- A row whose columns all hold values of their declared SQL types; such
rows serialize through `PersonOutputData` without error.  Every row the
create handler stores is of this shape. -/
def wellTypedRecord (r : PersonRecord) : Bool :=
  isIntVal r.id && isStrVal r.name && isIntVal r.age &&
  isStrVal r.address && isStrVal r.work

/-- The rows a sequence of creation payloads produces when the sequence
starts at `n`: each payload's fields with consecutive assigned ids. -/
def expectedRecords : List PersonCreationData → Int → List PersonRecord
  | [], _ => []
  | p :: ps, n => mkRecord p n :: expectedRecords ps (n + 1)

/-- The invariant every store reachable without id-rewriting PATCHes
satisfies: every row's primary key is an integer strictly below the
sequence, and the key column has no duplicates. -/
def storeInv (s : Store) : Prop :=
  (∀ r ∈ s.records, ∃ n : Int, r.id = Value.int n ∧ n < s.nextId) ∧
  (s.records.map PersonRecord.id).Nodup

/-- A sample creation payload. -/
def demoInput : PersonCreationData :=
  { name := "A", age := 1, address := "x", work := "y" }

/-- A second sample creation payload. -/
def demoInput2 : PersonCreationData :=
  { name := "B", age := 2, address := "u", work := "v" }

/-- When some payload key fails the `hasattr` check, the update loop of
`modify_person_record` ends in the 400 `Invalid field provided` response,
whatever assignments preceded the offending key. -/
theorem applyUpdates_invalid (r : PersonRecord) (payload : List (String × Value))
    (h : ∃ kv ∈ payload, hasattrPerson kv.1 = false) :
    applyUpdates r payload = Except.error (create_error_response "Invalid field provided" 400) := by
  induction payload generalizing r with
  | nil => simp at h
  | cons hd rest ih =>
    obtain ⟨k, v⟩ := hd
    by_cases hhd : hasattrPerson k = true
    · have hrest : ∃ kv ∈ rest, hasattrPerson kv.1 = false := by
        obtain ⟨kv', hmem, hbad⟩ := h
        rcases List.mem_cons.mp hmem with heq | hmem'
        · subst heq; rw [hhd] at hbad; cases hbad
        · exact ⟨kv', hmem', hbad⟩
      simpa [applyUpdates, hhd] using ih (setAttr r k v) hrest
    · simp [applyUpdates, hhd]

/-- Claim C1 (counterexample): the payload key `"metadata"` does not name a
field of the record (it is not a column of `people_records`), yet the
partial update on the one-row store answers 200, not the `InvalidField`
error: validity is decided by `hasattr`, which also accepts non-column
attributes. -/
theorem C1_counterexample :
    "metadata" ∉ personColumns ∧
    (modify_person_record 1 [("metadata", Value.int 0)] demoStore).2.status = 200 ∧
    (modify_person_record 1 [("metadata", Value.int 0)] demoStore).2.body ≠
      Body.errorText "Invalid field provided" := by
  decide

/-- Claim C1 (amended): for every stored record and every payload with at
least one key that does not name an attribute of the record object (the
code's `hasattr` check, which also admits non-column attributes such as
`metadata`), the partial update returns the 400 `Invalid field provided`
response and the whole store — in particular the target record — is
unchanged, regardless of how many valid keys precede the invalid one. -/
theorem C1_invalid_key_atomic (s : Store) (identifier : Int) (r : PersonRecord)
    (payload : List (String × Value))
    (hfound : queryFirstById s.records identifier = some r)
    (hinv : ∃ kv ∈ payload, hasattrPerson kv.1 = false) :
    modify_person_record identifier payload s =
      (s, create_error_response "Invalid field provided" 400) := by
  simp [modify_person_record, fetch_person_record, hfound,
    applyUpdates_invalid r payload hinv]

/-- Concrete instance of `C1_invalid_key_atomic`: a valid key precedes the
invalid one and still nothing changes. -/
theorem C1_invalid_key_atomic_witness :
    queryFirstById demoStore.records 1 = some demoRecord ∧
    (∃ kv ∈ [("age", Value.int 2), ("bogus", Value.int 0)], hasattrPerson kv.1 = false) ∧
    modify_person_record 1 [("age", Value.int 2), ("bogus", Value.int 0)] demoStore =
      (demoStore, create_error_response "Invalid field provided" 400) :=
  ⟨by decide, by decide,
    C1_invalid_key_atomic demoStore 1 demoRecord
      [("age", Value.int 2), ("bogus", Value.int 0)] (by decide) (by decide)⟩

/-- When every payload key passes the `hasattr` check, the update loop
succeeds with all assignments applied in payload order. -/
theorem applyUpdates_valid (r : PersonRecord) (payload : List (String × Value))
    (h : ∀ kv ∈ payload, hasattrPerson kv.1 = true) :
    applyUpdates r payload = Except.ok (updFold r payload) := by
  induction payload generalizing r with
  | nil => rfl
  | cons hd rest ih =>
    obtain ⟨k, v⟩ := hd
    have hk : hasattrPerson k = true := h (k, v) (List.mem_cons_self _ _)
    have := ih (setAttr r k v) (fun kv hm => h kv (List.mem_cons_of_mem _ hm))
    simpa [applyUpdates, updFold, hk] using this

theorem setAttr_id_of_ne (r : PersonRecord) (k : String) (v : Value)
    (h : k ≠ "id") : (setAttr r k v).id = r.id := by
  unfold setAttr; split_ifs <;> simp_all

theorem setAttr_name_of_ne (r : PersonRecord) (k : String) (v : Value)
    (h : k ≠ "name") : (setAttr r k v).name = r.name := by
  unfold setAttr; split_ifs <;> simp_all

theorem setAttr_age_of_ne (r : PersonRecord) (k : String) (v : Value)
    (h : k ≠ "age") : (setAttr r k v).age = r.age := by
  unfold setAttr; split_ifs <;> simp_all

theorem setAttr_address_of_ne (r : PersonRecord) (k : String) (v : Value)
    (h : k ≠ "address") : (setAttr r k v).address = r.address := by
  unfold setAttr; split_ifs <;> simp_all

theorem setAttr_work_of_ne (r : PersonRecord) (k : String) (v : Value)
    (h : k ≠ "work") : (setAttr r k v).work = r.work := by
  unfold setAttr; split_ifs <;> simp_all

theorem updFold_id_of_not_mem (r : PersonRecord) (payload : List (String × Value))
    (h : "id" ∉ payload.map Prod.fst) : (updFold r payload).id = r.id := by
  induction payload generalizing r with
  | nil => rfl
  | cons hd rest ih =>
    obtain ⟨k, v⟩ := hd
    simp only [List.map_cons, List.mem_cons, not_or] at h
    rw [updFold, ih _ h.2, setAttr_id_of_ne r k v (Ne.symm h.1)]

theorem updFold_name_of_not_mem (r : PersonRecord) (payload : List (String × Value))
    (h : "name" ∉ payload.map Prod.fst) : (updFold r payload).name = r.name := by
  induction payload generalizing r with
  | nil => rfl
  | cons hd rest ih =>
    obtain ⟨k, v⟩ := hd
    simp only [List.map_cons, List.mem_cons, not_or] at h
    rw [updFold, ih _ h.2, setAttr_name_of_ne r k v (Ne.symm h.1)]

theorem updFold_age_of_not_mem (r : PersonRecord) (payload : List (String × Value))
    (h : "age" ∉ payload.map Prod.fst) : (updFold r payload).age = r.age := by
  induction payload generalizing r with
  | nil => rfl
  | cons hd rest ih =>
    obtain ⟨k, v⟩ := hd
    simp only [List.map_cons, List.mem_cons, not_or] at h
    rw [updFold, ih _ h.2, setAttr_age_of_ne r k v (Ne.symm h.1)]

theorem updFold_address_of_not_mem (r : PersonRecord) (payload : List (String × Value))
    (h : "address" ∉ payload.map Prod.fst) : (updFold r payload).address = r.address := by
  induction payload generalizing r with
  | nil => rfl
  | cons hd rest ih =>
    obtain ⟨k, v⟩ := hd
    simp only [List.map_cons, List.mem_cons, not_or] at h
    rw [updFold, ih _ h.2, setAttr_address_of_ne r k v (Ne.symm h.1)]

theorem updFold_work_of_not_mem (r : PersonRecord) (payload : List (String × Value))
    (h : "work" ∉ payload.map Prod.fst) : (updFold r payload).work = r.work := by
  induction payload generalizing r with
  | nil => rfl
  | cons hd rest ih =>
    obtain ⟨k, v⟩ := hd
    simp only [List.map_cons, List.mem_cons, not_or] at h
    rw [updFold, ih _ h.2, setAttr_work_of_ne r k v (Ne.symm h.1)]

theorem lookup_of_not_mem_keys (k : String) (l : List (String × Value))
    (h : k ∉ l.map Prod.fst) : List.lookup k l = none := by
  induction l with
  | nil => rfl
  | cons hd rest ih =>
    obtain ⟨k', v'⟩ := hd
    simp only [List.map_cons, List.mem_cons, not_or] at h
    simp [List.lookup, beq_eq_false_iff_ne.mpr h.1, ih h.2]

theorem lookup_cons_self (k : String) (v : Value) (l : List (String × Value)) :
    List.lookup k ((k, v) :: l) = some v := by
  simp [List.lookup]

theorem lookup_cons_ne (k k' : String) (v : Value) (l : List (String × Value))
    (h : k ≠ k') : List.lookup k ((k', v) :: l) = List.lookup k l := by
  simp [List.lookup, beq_eq_false_iff_ne.mpr h]

theorem updFold_id_lookup (r : PersonRecord) (payload : List (String × Value))
    (hnd : (payload.map Prod.fst).Nodup) :
    (updFold r payload).id = (List.lookup "id" payload).getD r.id := by
  induction payload generalizing r with
  | nil => rfl
  | cons hd rest ih =>
    obtain ⟨k, v⟩ := hd
    simp only [List.map_cons, List.nodup_cons] at hnd
    by_cases hk : k = "id"
    · subst hk
      rw [updFold, updFold_id_of_not_mem _ _ hnd.1, lookup_cons_self]
      simp [setAttr]
    · rw [updFold, ih _ hnd.2, setAttr_id_of_ne r k v hk,
        lookup_cons_ne _ _ _ _ (Ne.symm hk)]

theorem updFold_name_lookup (r : PersonRecord) (payload : List (String × Value))
    (hnd : (payload.map Prod.fst).Nodup) :
    (updFold r payload).name = (List.lookup "name" payload).getD r.name := by
  induction payload generalizing r with
  | nil => rfl
  | cons hd rest ih =>
    obtain ⟨k, v⟩ := hd
    simp only [List.map_cons, List.nodup_cons] at hnd
    by_cases hk : k = "name"
    · subst hk
      rw [updFold, updFold_name_of_not_mem _ _ hnd.1, lookup_cons_self]
      simp [setAttr]
    · rw [updFold, ih _ hnd.2, setAttr_name_of_ne r k v hk,
        lookup_cons_ne _ _ _ _ (Ne.symm hk)]

theorem updFold_age_lookup (r : PersonRecord) (payload : List (String × Value))
    (hnd : (payload.map Prod.fst).Nodup) :
    (updFold r payload).age = (List.lookup "age" payload).getD r.age := by
  induction payload generalizing r with
  | nil => rfl
  | cons hd rest ih =>
    obtain ⟨k, v⟩ := hd
    simp only [List.map_cons, List.nodup_cons] at hnd
    by_cases hk : k = "age"
    · subst hk
      rw [updFold, updFold_age_of_not_mem _ _ hnd.1, lookup_cons_self]
      simp [setAttr]
    · rw [updFold, ih _ hnd.2, setAttr_age_of_ne r k v hk,
        lookup_cons_ne _ _ _ _ (Ne.symm hk)]

theorem updFold_address_lookup (r : PersonRecord) (payload : List (String × Value))
    (hnd : (payload.map Prod.fst).Nodup) :
    (updFold r payload).address = (List.lookup "address" payload).getD r.address := by
  induction payload generalizing r with
  | nil => rfl
  | cons hd rest ih =>
    obtain ⟨k, v⟩ := hd
    simp only [List.map_cons, List.nodup_cons] at hnd
    by_cases hk : k = "address"
    · subst hk
      rw [updFold, updFold_address_of_not_mem _ _ hnd.1, lookup_cons_self]
      simp [setAttr]
    · rw [updFold, ih _ hnd.2, setAttr_address_of_ne r k v hk,
        lookup_cons_ne _ _ _ _ (Ne.symm hk)]

theorem updFold_work_lookup (r : PersonRecord) (payload : List (String × Value))
    (hnd : (payload.map Prod.fst).Nodup) :
    (updFold r payload).work = (List.lookup "work" payload).getD r.work := by
  induction payload generalizing r with
  | nil => rfl
  | cons hd rest ih =>
    obtain ⟨k, v⟩ := hd
    simp only [List.map_cons, List.nodup_cons] at hnd
    by_cases hk : k = "work"
    · subst hk
      rw [updFold, updFold_work_of_not_mem _ _ hnd.1, lookup_cons_self]
      simp [setAttr]
    · rw [updFold, ih _ hnd.2, setAttr_work_of_ne r k v hk,
        lookup_cons_ne _ _ _ _ (Ne.symm hk)]

/-- For a duplicate-free payload that never touches the id column, the
update loop produces exactly the claim's expected record. -/
theorem updFold_eq_patchedRecord (r : PersonRecord) (payload : List (String × Value))
    (hnd : (payload.map Prod.fst).Nodup) (hid : "id" ∉ payload.map Prod.fst) :
    updFold r payload = patchedRecord r payload := by
  ext
  · rw [updFold_id_lookup r payload hnd, lookup_of_not_mem_keys _ _ hid]; rfl
  · rw [updFold_name_lookup r payload hnd]; rfl
  · rw [updFold_age_lookup r payload hnd]; rfl
  · rw [updFold_address_lookup r payload hnd]; rfl
  · rw [updFold_work_lookup r payload hnd]; rfl

/-- A row found by `queryFirstById` carries the queried id. -/
theorem queryFirstById_id (recs : List PersonRecord) (ident : Int) (r : PersonRecord)
    (h : queryFirstById recs ident = some r) : r.id = Value.int ident := by
  simpa using List.find?_some h

/-- After the commit of a valid partial update, querying the same id finds
the updated row. -/
theorem queryFirst_replace_self (recs : List PersonRecord) (ident : Int)
    (r newRec : PersonRecord) (hfound : queryFirstById recs ident = some r)
    (hid : newRec.id = Value.int ident) :
    queryFirstById (replaceFirstById recs ident newRec) ident = some newRec := by
  induction recs with
  | nil => simp [queryFirstById] at hfound
  | cons hd rest ih =>
    by_cases hhd : hd.id = Value.int ident
    · simp [queryFirstById, replaceFirstById, List.find?, hhd, hid]
    · have hfound' : queryFirstById rest ident = some r := by
        simpa [queryFirstById, List.find?, beq_eq_false_iff_ne.mpr hhd] using hfound
      simpa [queryFirstById, replaceFirstById, List.find?,
        beq_eq_false_iff_ne.mpr hhd] using ih hfound'

/-- After the commit of a valid partial update, queries for any other id
are unaffected. -/
theorem queryFirst_replace_other (recs : List PersonRecord) (ident j : Int)
    (newRec : PersonRecord) (hne : j ≠ ident) (hid : newRec.id = Value.int ident) :
    queryFirstById (replaceFirstById recs ident newRec) j = queryFirstById recs j := by
  induction recs with
  | nil => rfl
  | cons hd rest ih =>
    by_cases hhd : hd.id = Value.int ident
    · have hj : (Value.int ident == Value.int j) = false := by
        simp [Ne.symm hne]
      simp [queryFirstById, replaceFirstById, List.find?, hhd, hid, hj]
    · have hrepl : replaceFirstById (hd :: rest) ident newRec =
          hd :: replaceFirstById rest ident newRec := by
        simp [replaceFirstById, beq_eq_false_iff_ne.mpr hhd]
      rw [hrepl]
      by_cases hdj : hd.id = Value.int j
      · simp [queryFirstById, List.find?, hdj]
      · simpa [queryFirstById, List.find?, beq_eq_false_iff_ne.mpr hdj] using ih

/-- Rows whose id differs from the updated one survive the commit. -/
theorem mem_replaceFirstById (recs : List PersonRecord) (ident : Int)
    (newRec r₂ : PersonRecord) (hmem : r₂ ∈ recs) (hne : r₂.id ≠ Value.int ident) :
    r₂ ∈ replaceFirstById recs ident newRec := by
  induction recs with
  | nil => cases hmem
  | cons hd rest ih =>
    by_cases hhd : hd.id = Value.int ident
    · rcases List.mem_cons.mp hmem with heq | hmem'
      · subst heq; exact absurd hhd hne
      · simp [replaceFirstById, hhd]
        exact Or.inr hmem'
    · rcases List.mem_cons.mp hmem with heq | hmem'
      · simp [replaceFirstById, beq_eq_false_iff_ne.mpr hhd]
        exact Or.inl heq
      · simp [replaceFirstById, beq_eq_false_iff_ne.mpr hhd]
        exact Or.inr (ih hmem')

/-- Claim C4 (counterexample): fetching an absent id answers 404, but the
body is FastAPI's `HTTPException` shape `\x7b"detail": "Record not found"\x7d`,
not the claimed `\x7b"error_text": "Record not found"\x7d` (the
`error_text` shape is only produced by `create_error_response`, which the
GET handler never calls). -/
theorem C4_counterexample :
    retrieve_person_record 5 emptyStore =
      { status := 404, body := Body.detail "Record not found" } ∧
    Body.detail "Record not found" ≠ Body.errorText "Record not found" := by
  decide

/-- Claim C4 (amended): for every id absent from the store, the get-by-id
operation fails with HTTP 404 and the body is the JSON object
`\x7b"detail": "Record not found"\x7d`. -/
theorem C4_get_absent (identifier : Int) (s : Store)
    (h : queryFirstById s.records identifier = none) :
    retrieve_person_record identifier s =
      { status := 404, body := Body.detail "Record not found" } := by
  simp [retrieve_person_record, fetch_person_record, h]

/-- Concrete instance of `C4_get_absent` on the empty store. -/
theorem C4_get_absent_witness :
    queryFirstById emptyStore.records 5 = none ∧
    retrieve_person_record 5 emptyStore =
      { status := 404, body := Body.detail "Record not found" } :=
  ⟨rfl, C4_get_absent 5 emptyStore rfl⟩

/-- Claim C5: every valid creation payload is answered with status 201, an
empty body, and a `Location: /persons/\x7bid\x7d` header where id is the
key the sequence assigned — the id of the row appended to the table. -/
theorem C5_create_response (p : PersonCreationData) (s : Store) :
    (add_person_record p s).2.status = 201 ∧
    (add_person_record p s).2.body = Body.empty ∧
    (add_person_record p s).2.location = some ("/persons/" ++ toString s.nextId) ∧
    (add_person_record p s).1.records = s.records ++ [mkRecord p s.nextId] ∧
    (mkRecord p s.nextId).id = Value.int s.nextId :=
  ⟨rfl, rfl, rfl, rfl, rfl⟩

/-- Claim C9 (counterexample): a creation payload with the empty string as
name is accepted with 201 and the row is stored with the empty name — the
pydantic schema constrains `name` to be a string but never checks
non-emptiness, so the claimed invariant fails. -/
theorem C9_counterexample :
    (add_person_record { name := "", age := 30, address := "a", work := "b" } emptyStore).2.status = 201 ∧
    (add_person_record { name := "", age := 30, address := "a", work := "b" } emptyStore).1.records =
      [{ id := Value.int 1, name := Value.str "", age := Value.int 30,
         address := Value.str "a", work := Value.str "b" }] := by
  decide

/-- Claim C9 (amended): the create operation does not reject empty names:
any payload whose name is the empty string is accepted with 201 and stored
verbatim, so stored records may carry an empty name. -/
theorem C9_empty_name_accepted (s : Store) (p : PersonCreationData)
    (h : p.name = "") :
    (add_person_record p s).2.status = 201 ∧
    mkRecord p s.nextId ∈ (add_person_record p s).1.records ∧
    (mkRecord p s.nextId).name = Value.str "" := by
  refine ⟨rfl, ?_, by simp [mkRecord, h]⟩
  simp [add_person_record]

/-- Concrete instance of `C9_empty_name_accepted`. -/
theorem C9_empty_name_accepted_witness :
    PersonCreationData.name { name := "", age := 0, address := "", work := "" } = "" ∧
    (add_person_record { name := "", age := 0, address := "", work := "" } emptyStore).2.status = 201 :=
  ⟨rfl, (C9_empty_name_accepted emptyStore
    { name := "", age := 0, address := "", work := "" } rfl).1⟩

/-- Claim C10: the partial update decides key validity by runtime attribute
presence (`hasattr`), not by membership in the record's columns: the key
`"registry"` names a non-column attribute of the record object, and the
operation answers 200 (performing the assignment, which touches no column)
instead of the `InvalidField` error. -/
theorem C10_hasattr_not_columns :
    hasattrPerson "registry" = true ∧
    "registry" ∉ personColumns ∧
    (modify_person_record 1 [("registry", Value.str "z")] demoStore).2 =
      { status := 200, body := Body.record demoRecord } ∧
    (modify_person_record 1 [("registry", Value.str "z")] demoStore).2 ≠
      create_error_response "Invalid field provided" 400 := by
  decide

/-- Claim C2 (counterexample): `"id"` names an existing field of the
record, yet a partial update whose only key is `"id"` breaks the claim:
the update succeeds with 200, but re-fetching the same id afterwards
answers 404 — the record no longer sits under the id the update was
addressed to, so the claimed round trip fails. -/
theorem C2_counterexample :
    "id" ∈ personColumns ∧
    (modify_person_record 1 [("id", Value.int 5)] demoStore).2.status = 200 ∧
    (retrieve_person_record 1 (modify_person_record 1 [("id", Value.int 5)] demoStore).1).status = 404 := by
  decide

/-- A successful lookup returns an entry of the association list. -/
theorem mem_of_lookup_eq_some (k : String) (v : Value) (l : List (String × Value))
    (h : List.lookup k l = some v) : (k, v) ∈ l := by
  induction l with
  | nil => cases h
  | cons hd rest ih =>
    obtain ⟨k', v'⟩ := hd
    by_cases hk : k = k'
    · subst hk
      rw [lookup_cons_self] at h
      injection h with h'
      subst h'
      exact List.mem_cons_self _ _
    · rw [lookup_cons_ne _ _ _ _ hk] at h
      exact List.mem_cons_of_mem _ (ih h)

/-- In a well-typed payload, the value bound to a string column is a
string. -/
theorem lookup_wellTyped_str (field : String) (payload : List (String × Value)) (v : Value)
    (hvals : ∀ kv ∈ payload, wellTypedEntry kv = true)
    (hfield : field = "name" ∨ field = "address" ∨ field = "work")
    (h : List.lookup field payload = some v) : isStrVal v = true := by
  have hmem : (field, v) ∈ payload := mem_of_lookup_eq_some field v payload h
  have hwt := hvals (field, v) hmem
  rcases hfield with hf | hf | hf <;> subst hf <;>
    simpa [wellTypedEntry] using hwt

/-- In a well-typed payload, the value bound to the age column is an
integer. -/
theorem lookup_wellTyped_int (payload : List (String × Value)) (v : Value)
    (hvals : ∀ kv ∈ payload, wellTypedEntry kv = true)
    (h : List.lookup "age" payload = some v) : isIntVal v = true := by
  have hmem : ("age", v) ∈ payload := mem_of_lookup_eq_some "age" v payload h
  have hwt := hvals ("age", v) hmem
  simpa [wellTypedEntry] using hwt

/-- Patching a well-typed row with a well-typed payload yields a
well-typed row, so the commit's type check and the `PersonOutputData`
serialization of the response and of any re-fetch succeed. -/
theorem patchedRecord_wellTyped (r : PersonRecord) (payload : List (String × Value))
    (hr : wellTypedRecord r = true)
    (hvals : ∀ kv ∈ payload, wellTypedEntry kv = true) :
    wellTypedRecord (patchedRecord r payload) = true := by
  simp only [wellTypedRecord, Bool.and_eq_true] at hr
  obtain ⟨⟨⟨⟨hid, hname⟩, hage⟩, haddr⟩, hwork⟩ := hr
  simp only [wellTypedRecord, patchedRecord, Bool.and_eq_true]
  refine ⟨⟨⟨⟨hid, ?_⟩, ?_⟩, ?_⟩, ?_⟩
  · cases hl : List.lookup "name" payload with
    | none => simpa using hname
    | some v => simpa using lookup_wellTyped_str "name" payload v hvals (Or.inl rfl) hl
  · cases hl : List.lookup "age" payload with
    | none => simpa using hage
    | some v => simpa using lookup_wellTyped_int payload v hvals hl
  · cases hl : List.lookup "address" payload with
    | none => simpa using haddr
    | some v =>
      simpa using lookup_wellTyped_str "address" payload v hvals (Or.inr (Or.inl rfl)) hl
  · cases hl : List.lookup "work" payload with
    | none => simpa using hwork
    | some v =>
      simpa using lookup_wellTyped_str "work" payload v hvals (Or.inr (Or.inr rfl)) hl

/-- Claim C2 (amended): for every well-typed stored record and every
duplicate-free partial-update payload whose keys all name data fields of
the record other than `id` (`name`, `age`, `address`, `work`) and whose
values match those columns' declared types (integer for `age`, string for
the rest — so the commit's type check and the `response_model`
serialization succeed), the update answers 200 with exactly those fields
overwritten, re-fetching the same id returns exactly that record (which
is again well typed), fetching any other id is unaffected, and every row
with a different id survives unchanged. -/
theorem C2_valid_update (s : Store) (identifier : Int) (r : PersonRecord)
    (payload : List (String × Value))
    (hfound : queryFirstById s.records identifier = some r)
    (hkeys : ∀ kv ∈ payload, kv.1 ∈ (["name", "age", "address", "work"] : List String))
    (hnd : (payload.map Prod.fst).Nodup)
    (hr : wellTypedRecord r = true)
    (hvals : ∀ kv ∈ payload, wellTypedEntry kv = true) :
    (modify_person_record identifier payload s).2 =
      { status := 200, body := Body.record (patchedRecord r payload) } ∧
    wellTypedRecord (patchedRecord r payload) = true ∧
    retrieve_person_record identifier (modify_person_record identifier payload s).1 =
      { status := 200, body := Body.record (patchedRecord r payload) } ∧
    (∀ j : Int, j ≠ identifier →
      retrieve_person_record j (modify_person_record identifier payload s).1 =
        retrieve_person_record j s) ∧
    (∀ r₂ ∈ s.records, r₂.id ≠ Value.int identifier →
      r₂ ∈ (modify_person_record identifier payload s).1.records) := by
  have hattr : ∀ kv ∈ payload, hasattrPerson kv.1 = true := by
    intro kv hm
    have hk := hkeys kv hm
    simp only [List.mem_cons, List.not_mem_nil, or_false] at hk
    rcases hk with h | h | h | h <;> rw [h] <;> rfl
  have hid : "id" ∉ payload.map Prod.fst := by
    intro hmem
    obtain ⟨kv, hkv, hfst⟩ := List.mem_map.mp hmem
    have hk := hkeys kv hkv
    rw [hfst] at hk
    exact absurd hk (by decide)
  have hupd : applyUpdates r payload = Except.ok (updFold r payload) :=
    applyUpdates_valid r payload hattr
  have heq : updFold r payload = patchedRecord r payload :=
    updFold_eq_patchedRecord r payload hnd hid
  have hres : modify_person_record identifier payload s =
      ({ s with records := replaceFirstById s.records identifier (patchedRecord r payload) },
       { status := 200, body := Body.record (patchedRecord r payload) }) := by
    simp [modify_person_record, fetch_person_record, hfound, hupd, heq]
  have hpid : (patchedRecord r payload).id = Value.int identifier := by
    have := queryFirstById_id s.records identifier r hfound
    simpa [patchedRecord] using this
  refine ⟨by rw [hres], patchedRecord_wellTyped r payload hr hvals, ?_, ?_, ?_⟩
  · rw [hres]
    simp [retrieve_person_record, fetch_person_record,
      queryFirst_replace_self s.records identifier r _ hfound hpid]
  · intro j hj
    rw [hres]
    simp [retrieve_person_record, fetch_person_record,
      queryFirst_replace_other s.records identifier j _ hj hpid]
  · intro r₂ hmem hne
    rw [hres]
    exact mem_replaceFirstById s.records identifier _ r₂ hmem hne

/-- Concrete instance of `C2_valid_update`: patching only `age` on the
one-row store with a well-typed integer value. -/
theorem C2_valid_update_witness :
    queryFirstById demoStore.records 1 = some demoRecord ∧
    (∀ kv ∈ ([("age", Value.int 2)] : List (String × Value)),
      kv.1 ∈ (["name", "age", "address", "work"] : List String)) ∧
    (([("age", Value.int 2)] : List (String × Value)).map Prod.fst).Nodup ∧
    wellTypedRecord demoRecord = true ∧
    (∀ kv ∈ ([("age", Value.int 2)] : List (String × Value)), wellTypedEntry kv = true) ∧
    (modify_person_record 1 [("age", Value.int 2)] demoStore).2 =
      { status := 200, body := Body.record (patchedRecord demoRecord [("age", Value.int 2)]) } :=
  ⟨by decide, by decide, by decide, by decide, by decide,
    (C2_valid_update demoStore 1 demoRecord [("age", Value.int 2)]
      (by decide) (by decide) (by decide) (by decide) (by decide)).1⟩

/-- Creating a batch of records appends exactly their rows in payload
order and advances the sequence by the batch size. -/
theorem runOps_creates (ps : List PersonCreationData) (s : Store) :
    runOps s (ps.map Operation.create) =
      { records := s.records ++ expectedRecords ps s.nextId,
        nextId := s.nextId + ps.length } := by
  induction ps generalizing s with
  | nil => simp [runOps, expectedRecords]
  | cons p ps ih =>
    simp only [List.map_cons, runOps, runOp, add_person_record]
    rw [ih]
    simp [expectedRecords]
    omega

/-- Claim C6: after creating records with no intervening deletions
(starting from the empty store), the list operation returns exactly those
records in creation order, carrying the consecutively assigned ids; on the
empty store it succeeds with the empty list. -/
theorem C6_list_creation_order (ps : List PersonCreationData) :
    retrieve_all_persons (runOps emptyStore (ps.map Operation.create)) =
      { status := 200, body := Body.records (expectedRecords ps 1) } ∧
    retrieve_all_persons emptyStore = { status := 200, body := Body.records [] } := by
  refine ⟨?_, rfl⟩
  rw [runOps_creates]
  rfl

/-- When the update loop succeeds and no payload key is `"id"`, the id of
the resulting record is the id of the fetched record. -/
theorem applyUpdates_ok_id (r updated : PersonRecord) (payload : List (String × Value))
    (h : "id" ∉ payload.map Prod.fst)
    (hok : applyUpdates r payload = Except.ok updated) : updated.id = r.id := by
  induction payload generalizing r with
  | nil =>
    simp only [applyUpdates, Except.ok.injEq] at hok
    rw [← hok]
  | cons hd rest ih =>
    obtain ⟨k, v⟩ := hd
    simp only [List.map_cons, List.mem_cons, not_or] at h
    by_cases hk : hasattrPerson k = true
    · simp only [applyUpdates, hk, if_true] at hok
      rw [ih (setAttr r k v) h.2 hok, setAttr_id_of_ne r k v (Ne.symm h.1)]
    · simp [applyUpdates, hk] at hok

/-- A successful fetch is exactly a successful id query. -/
theorem fetch_ok_iff (identifier : Int) (recs : List PersonRecord) (r : PersonRecord) :
    fetch_person_record identifier recs = Except.ok r ↔
      queryFirstById recs identifier = some r := by
  unfold fetch_person_record
  cases queryFirstById recs identifier <;> simp

/-- Committing an update that keeps the row's id leaves the table's id
column unchanged, row by row. -/
theorem map_id_replaceFirstById (recs : List PersonRecord) (ident : Int)
    (newRec : PersonRecord) (hnew : newRec.id = Value.int ident) :
    (replaceFirstById recs ident newRec).map PersonRecord.id =
      recs.map PersonRecord.id := by
  induction recs with
  | nil => rfl
  | cons hd rest ih =>
    by_cases hhd : hd.id = Value.int ident
    · simp [replaceFirstById, hhd, hnew]
    · simp [replaceFirstById, beq_eq_false_iff_ne.mpr hhd, ih]

/-- A partial update whose payload has no `"id"` key leaves every row's id
unchanged (on the error paths the whole store is unchanged). -/
theorem modify_map_id (s : Store) (identifier : Int) (payload : List (String × Value))
    (h : "id" ∉ payload.map Prod.fst) :
    (modify_person_record identifier payload s).1.records.map PersonRecord.id =
      s.records.map PersonRecord.id := by
  cases hfetch : fetch_person_record identifier s.records with
  | error e => simp [modify_person_record, hfetch]
  | ok r =>
    cases hupd : applyUpdates r payload with
    | error e => simp [modify_person_record, hfetch, hupd]
    | ok updated =>
      have hq : queryFirstById s.records identifier = some r :=
        (fetch_ok_iff identifier s.records r).mp hfetch
      have hrid : r.id = Value.int identifier := queryFirstById_id _ _ _ hq
      have huid : updated.id = r.id := applyUpdates_ok_id r updated payload h hupd
      simp [modify_person_record, hfetch, hupd,
        map_id_replaceFirstById s.records identifier updated (huid.trans hrid)]

/-- No handler changes the id sequence except the insert: PATCH keeps it. -/
theorem modify_nextId (identifier : Int) (payload : List (String × Value)) (s : Store) :
    (modify_person_record identifier payload s).1.nextId = s.nextId := by
  cases hfetch : fetch_person_record identifier s.records with
  | error e => simp [modify_person_record, hfetch]
  | ok r =>
    cases hupd : applyUpdates r payload with
    | error e => simp [modify_person_record, hfetch, hupd]
    | ok updated => simp [modify_person_record, hfetch, hupd]

/-- DELETE keeps the id sequence. -/
theorem remove_nextId (identifier : Int) (s : Store) :
    (remove_person_record identifier s).1.nextId = s.nextId := by
  cases hfetch : fetch_person_record identifier s.records <;>
    simp [remove_person_record, hfetch]

/-- Claim C7 (counterexample): a partial update whose payload contains the
key `"id"` passes the `hasattr` check and is committed, changing the id
under which the row is stored — from 1 to 7 here — so the id is not
immutable. -/
theorem C7_counterexample :
    (modify_person_record 1 [("id", Value.int 7)] demoStore).2.status = 200 ∧
    (modify_person_record 1 [("id", Value.int 7)] demoStore).1.records.map PersonRecord.id =
      [Value.int 7] ∧
    demoStore.records.map PersonRecord.id = [Value.int 1] := by
  decide

/-- Claim C7 (amended): the stored id is unchanged by every operation
except a partial update whose payload contains the key `"id"`: any partial
update without that key leaves the id column of every row exactly as it
was. -/
theorem C7_id_preserved (s : Store) (identifier : Int)
    (payload : List (String × Value)) (h : "id" ∉ payload.map Prod.fst) :
    (modify_person_record identifier payload s).1.records.map PersonRecord.id =
      s.records.map PersonRecord.id :=
  modify_map_id s identifier payload h

/-- Concrete instance of `C7_id_preserved`. -/
theorem C7_id_preserved_witness :
    "id" ∉ (([("name", Value.str "Z")] : List (String × Value)).map Prod.fst) ∧
    (modify_person_record 1 [("name", Value.str "Z")] demoStore).1.records.map PersonRecord.id =
      demoStore.records.map PersonRecord.id :=
  ⟨by decide, C7_id_preserved demoStore 1 [("name", Value.str "Z")] (by decide)⟩

/-- The empty store satisfies the invariant. -/
theorem storeInv_empty : storeInv emptyStore := by
  constructor <;> simp [emptyStore]

/-- Deleting keeps a sublist of the rows. -/
theorem removeFirstById_sublist (recs : List PersonRecord) (ident : Int) :
    (removeFirstById recs ident).Sublist recs := by
  induction recs with
  | nil => simp [removeFirstById]
  | cons hd rest ih =>
    by_cases hhd : hd.id = Value.int ident
    · simp only [removeFirstById, hhd, beq_self_eq_true, if_true]
      exact List.sublist_cons_self hd rest
    · simp only [removeFirstById, beq_eq_false_iff_ne.mpr hhd, if_false]
      exact ih.cons₂ hd

/-- Creation preserves the invariant. -/
theorem storeInv_create (s : Store) (p : PersonCreationData) (h : storeInv s) :
    storeInv (runOp s (Operation.create p)) := by
  obtain ⟨hlt, hnd⟩ := h
  constructor
  · intro r hr
    simp only [runOp, add_person_record, List.mem_append, List.mem_singleton] at hr
    have hnext : (runOp s (Operation.create p)).nextId = s.nextId + 1 := rfl
    rcases hr with hr | hr
    · obtain ⟨n, hn, hnlt⟩ := hlt r hr
      exact ⟨n, hn, by omega⟩
    · exact ⟨s.nextId, by rw [hr]; rfl, by omega⟩
  · simp only [runOp, add_person_record, List.map_append, List.map_cons, List.map_nil]
    rw [List.nodup_append]
    refine ⟨hnd, List.nodup_singleton _, ?_⟩
    intro x hx
    obtain ⟨r, hr, hrid⟩ := List.mem_map.mp hx
    obtain ⟨n, hn, hnlt⟩ := hlt r hr
    simp only [List.mem_singleton]
    rw [← hrid, hn]
    intro hcontra
    rw [mkRecord] at hcontra
    simp only [Value.int.injEq] at hcontra
    omega

/-- A PATCH without an `"id"` key preserves the invariant. -/
theorem storeInv_patch (s : Store) (ident : Int) (payload : List (String × Value))
    (hk : "id" ∉ payload.map Prod.fst) (h : storeInv s) :
    storeInv (runOp s (Operation.patch ident payload)) := by
  obtain ⟨hlt, hnd⟩ := h
  have hmap : (runOp s (Operation.patch ident payload)).records.map PersonRecord.id =
      s.records.map PersonRecord.id := modify_map_id s ident payload hk
  have hnext : (runOp s (Operation.patch ident payload)).nextId = s.nextId :=
    modify_nextId ident payload s
  constructor
  · intro r hr
    have : r.id ∈ (runOp s (Operation.patch ident payload)).records.map PersonRecord.id :=
      List.mem_map.mpr ⟨r, hr, rfl⟩
    rw [hmap] at this
    obtain ⟨r', hr', hid'⟩ := List.mem_map.mp this
    obtain ⟨n, hn, hnlt⟩ := hlt r' hr'
    exact ⟨n, by rw [← hid', hn], by omega⟩
  · rw [hmap]; exact hnd

/-- A DELETE preserves the invariant. -/
theorem storeInv_delete (s : Store) (ident : Int) (h : storeInv s) :
    storeInv (runOp s (Operation.delete ident)) := by
  obtain ⟨hlt, hnd⟩ := h
  have hsub : (runOp s (Operation.delete ident)).records.Sublist s.records := by
    cases hfetch : fetch_person_record ident s.records with
    | error e => simp [runOp, remove_person_record, hfetch]
    | ok r =>
      simp only [runOp, remove_person_record, hfetch]
      exact removeFirstById_sublist s.records ident
  have hnext : (runOp s (Operation.delete ident)).nextId = s.nextId :=
    remove_nextId ident s
  constructor
  · intro r hr
    obtain ⟨n, hn, hnlt⟩ := hlt r (hsub.subset hr)
    exact ⟨n, hn, by omega⟩
  · exact (hsub.map PersonRecord.id).nodup hnd

/-- Every store reachable by a trace without id-rewriting PATCHes
satisfies the invariant. -/
theorem storeInv_runOps (s : Store) (ops : List Operation)
    (hni : noIdPatch ops = true) (h : storeInv s) : storeInv (runOps s ops) := by
  induction ops generalizing s with
  | nil => exact h
  | cons op rest ih =>
    cases op with
    | create p => exact ih _ hni (storeInv_create s p h)
    | patch ident payload =>
      simp only [noIdPatch, Bool.and_eq_true, decide_eq_true_eq] at hni
      exact ih _ hni.2 (storeInv_patch s ident payload hni.1 h)
    | delete ident => exact ih _ hni (storeInv_delete s ident h)

/-- The sequence never moves backwards. -/
theorem nextId_le_runOp (s : Store) (op : Operation) :
    s.nextId ≤ (runOp s op).nextId := by
  cases op with
  | create p => simp [runOp, add_person_record]
  | patch ident payload => rw [runOp, modify_nextId]
  | delete ident => rw [runOp, remove_nextId]

/-- The sequence never moves backwards along a trace. -/
theorem nextId_le_runOps (s : Store) (ops : List Operation) :
    s.nextId ≤ (runOps s ops).nextId := by
  induction ops generalizing s with
  | nil => exact le_refl _
  | cons op rest ih => exact le_trans (nextId_le_runOp s op) (ih (runOp s op))

/-- Every id the sequence handed out along a trace is strictly below the
final value of the sequence. -/
theorem assignedIds_lt (s : Store) (ops : List Operation) :
    ∀ n ∈ assignedIds s ops, n < (runOps s ops).nextId := by
  induction ops generalizing s with
  | nil => simp [assignedIds]
  | cons op rest ih =>
    intro n hn
    cases op with
    | create p =>
      simp only [assignedIds, List.mem_cons] at hn
      rcases hn with hn | hn
      · have h1 : (runOp s (Operation.create p)).nextId = s.nextId + 1 := rfl
        have h2 := nextId_le_runOps (runOp s (Operation.create p)) rest
        show n < (runOps (runOp s (Operation.create p)) rest).nextId
        omega
      · exact ih _ n hn
    | patch ident payload =>
      simp only [assignedIds] at hn
      exact ih _ n hn
    | delete ident =>
      simp only [assignedIds] at hn
      exact ih _ n hn

/-- Querying past a prefix with no match continues in the suffix. -/
theorem queryFirst_append_of_none (l₁ l₂ : List PersonRecord) (ident : Int)
    (h : queryFirstById l₁ ident = none) :
    queryFirstById (l₁ ++ l₂) ident = queryFirstById l₂ ident := by
  induction l₁ with
  | nil => rfl
  | cons hd rest ih =>
    by_cases hhd : hd.id = Value.int ident
    · simp [queryFirstById, List.find?, hhd] at h
    · have h' : queryFirstById rest ident = none := by
        simpa [queryFirstById, List.find?, beq_eq_false_iff_ne.mpr hhd] using h
      simpa [queryFirstById, List.find?, beq_eq_false_iff_ne.mpr hhd] using ih h'

/-- No stored row matches an id outside the stored id column. -/
theorem queryFirst_none_of_not_mem (recs : List PersonRecord) (ident : Int)
    (h : Value.int ident ∉ recs.map PersonRecord.id) :
    queryFirstById recs ident = none := by
  rw [queryFirstById, List.find?_eq_none]
  intro r hr
  simp only [beq_iff_eq]
  intro heq
  exact h (List.mem_map.mpr ⟨r, hr, heq⟩)

/-- Under the invariant, the sequence's next value matches no stored row. -/
theorem queryFirst_none_of_inv (s : Store) (hinv : storeInv s) :
    queryFirstById s.records s.nextId = none := by
  apply queryFirst_none_of_not_mem
  intro hmem
  obtain ⟨r, hr, hrid⟩ := List.mem_map.mp hmem
  obtain ⟨n, hn, hnlt⟩ := hinv.1 r hr
  rw [hn] at hrid
  simp only [Value.int.injEq] at hrid
  omega

/-- Claim C3: starting from the empty store and any trace of requests that
never rewrites a primary key through PATCH, creating a valid payload and
then fetching the id named in the create response's Location header
returns exactly the payload's four fields under that id; and that id is
fresh — the sequence never handed it out before, not even for rows that
were later deleted. -/
theorem C3_create_then_fetch (ops : List Operation) (p : PersonCreationData)
    (h : noIdPatch ops = true) :
    (add_person_record p (runOps emptyStore ops)).2.location =
      some ("/persons/" ++ toString (runOps emptyStore ops).nextId) ∧
    retrieve_person_record (runOps emptyStore ops).nextId
        (add_person_record p (runOps emptyStore ops)).1 =
      { status := 200,
        body := Body.record (mkRecord p (runOps emptyStore ops).nextId) } ∧
    (runOps emptyStore ops).nextId ∉ assignedIds emptyStore ops := by
  have hinv : storeInv (runOps emptyStore ops) :=
    storeInv_runOps emptyStore ops h storeInv_empty
  refine ⟨rfl, ?_, ?_⟩
  · have hq : queryFirstById
        ((runOps emptyStore ops).records ++ [mkRecord p (runOps emptyStore ops).nextId])
        (runOps emptyStore ops).nextId =
        some (mkRecord p (runOps emptyStore ops).nextId) := by
      rw [queryFirst_append_of_none _ _ _ (queryFirst_none_of_inv _ hinv)]
      simp [queryFirstById, List.find?, mkRecord]
    simp [retrieve_person_record, fetch_person_record, add_person_record, hq]
  · intro hmem
    exact absurd rfl (ne_of_lt (assignedIds_lt emptyStore ops _ hmem))

/-- Concrete instance of `C3_create_then_fetch`: one prior create, then a
second create whose id 2 is fresh and fetches back to the payload. -/
theorem C3_create_then_fetch_witness :
    noIdPatch [Operation.create demoInput] = true ∧
    retrieve_person_record (runOps emptyStore [Operation.create demoInput]).nextId
        (add_person_record demoInput2 (runOps emptyStore [Operation.create demoInput])).1 =
      { status := 200,
        body := Body.record (mkRecord demoInput2
          (runOps emptyStore [Operation.create demoInput]).nextId) } ∧
    (runOps emptyStore [Operation.create demoInput]).nextId ∉
      assignedIds emptyStore [Operation.create demoInput] :=
  ⟨by decide, (C3_create_then_fetch [Operation.create demoInput] demoInput2 (by decide)).2.1,
    (C3_create_then_fetch [Operation.create demoInput] demoInput2 (by decide)).2.2⟩

/-- When the id column has no duplicates, deleting the row with a given id
removes that id from the column entirely. -/
theorem not_mem_map_id_removeFirst (recs : List PersonRecord) (ident : Int)
    (hnd : (recs.map PersonRecord.id).Nodup) :
    Value.int ident ∉ (removeFirstById recs ident).map PersonRecord.id := by
  induction recs with
  | nil => simp [removeFirstById]
  | cons hd rest ih =>
    simp only [List.map_cons, List.nodup_cons] at hnd
    by_cases hhd : hd.id = Value.int ident
    · simp only [removeFirstById, hhd, beq_self_eq_true, if_true]
      rw [← hhd]
      exact hnd.1
    · have hrm : removeFirstById (hd :: rest) ident = hd :: removeFirstById rest ident := by
        simp [removeFirstById, beq_eq_false_iff_ne.mpr hhd]
      rw [hrm]
      simp only [List.map_cons, List.mem_cons, not_or]
      exact ⟨fun heq => hhd heq.symm, ih hnd.2⟩

/-- An id that is absent from the store and already below the sequence
stays absent across any trace that never rewrites a primary key through
PATCH: creates hand out fresh keys, PATCHes keep keys, deletes only remove
rows. -/
theorem absent_id_stable (s : Store) (ident : Int) (ops : List Operation)
    (hni : noIdPatch ops = true)
    (habs : Value.int ident ∉ s.records.map PersonRecord.id)
    (hlt : ident < s.nextId) :
    Value.int ident ∉ (runOps s ops).records.map PersonRecord.id ∧
    ident < (runOps s ops).nextId := by
  induction ops generalizing s with
  | nil => exact ⟨habs, hlt⟩
  | cons op rest ih =>
    cases op with
    | create p =>
      refine ih (runOp s (Operation.create p)) hni ?_ ?_
      · simp only [runOp, add_person_record, List.map_append, List.map_cons,
          List.map_nil, List.mem_append, List.mem_cons, List.not_mem_nil,
          or_false, not_or]
        refine ⟨habs, ?_⟩
        rw [mkRecord]
        simp only [Value.int.injEq]
        omega
      · have : (runOp s (Operation.create p)).nextId = s.nextId + 1 := rfl
        omega
    | patch i payload =>
      simp only [noIdPatch, Bool.and_eq_true, decide_eq_true_eq] at hni
      refine ih (runOp s (Operation.patch i payload)) hni.2 ?_ ?_
      · rw [runOp, modify_map_id s i payload hni.1]
        exact habs
      · rw [runOp, modify_nextId]
        exact hlt
    | delete i =>
      have hsub : (runOp s (Operation.delete i)).records.Sublist s.records := by
        cases hfetch : fetch_person_record i s.records with
        | error e => simp [runOp, remove_person_record, hfetch]
        | ok r =>
          simp only [runOp, remove_person_record, hfetch]
          exact removeFirstById_sublist s.records i
      refine ih (runOp s (Operation.delete i)) hni ?_ ?_
      · intro hmem
        exact habs ((hsub.map PersonRecord.id).subset hmem)
      · rw [runOp, remove_nextId]
        exact hlt

/-- Claim C8 (counterexample): on a two-row store, delete row 1 (204);
then a PATCH writes id 1 onto row 2; a subsequent get of id 1 answers 200
even though the store never assigned id 1 again — so "get always yields
NotFound until the store assigns the id again" fails. -/
theorem C8_counterexample :
    (remove_person_record 1 demoStore2).2.status = 204 ∧
    assignedIds (remove_person_record 1 demoStore2).1
      [Operation.patch 2 [("id", Value.int 1)]] = [] ∧
    (retrieve_person_record 1
      (runOps (remove_person_record 1 demoStore2).1
        [Operation.patch 2 [("id", Value.int 1)]])).status = 200 := by
  decide

/-- Claim C8 (amended): after a successful delete of an id (reached from
the empty store without id-rewriting PATCHes), every subsequent get of
that id yields the 404 NotFound and every subsequent list excludes it,
until and unless the store assigns it again or a partial update writes
that id onto some row; since the sequence never reuses keys, under
id-preserving traces this holds forever — deletion is permanent, with no
tombstoning. -/
theorem C8_delete_permanent (ops₁ ops₂ : List Operation) (ident : Int)
    (h₁ : noIdPatch ops₁ = true) (h₂ : noIdPatch ops₂ = true)
    (hdel : (remove_person_record ident (runOps emptyStore ops₁)).2.status = 204) :
    retrieve_person_record ident
        (runOps (remove_person_record ident (runOps emptyStore ops₁)).1 ops₂) =
      { status := 404, body := Body.detail "Record not found" } ∧
    Value.int ident ∉
      (runOps (remove_person_record ident (runOps emptyStore ops₁)).1 ops₂).records.map
        PersonRecord.id := by
  have hinv : storeInv (runOps emptyStore ops₁) :=
    storeInv_runOps emptyStore ops₁ h₁ storeInv_empty
  cases hfetch : fetch_person_record ident (runOps emptyStore ops₁).records with
  | error e =>
    rw [remove_person_record] at hdel
    rw [hfetch] at hdel
    have he : e = { status := 404, body := Body.detail "Record not found" } := by
      rw [fetch_person_record] at hfetch
      cases hq : queryFirstById (runOps emptyStore ops₁).records ident with
      | none => rw [hq] at hfetch; exact (Except.error.injEq _ _).mp hfetch.symm
      | some r => rw [hq] at hfetch; cases hfetch
    rw [he] at hdel
    cases hdel
  | ok r =>
    have hq : queryFirstById (runOps emptyStore ops₁).records ident = some r :=
      (fetch_ok_iff ident _ r).mp hfetch
    have hrid : r.id = Value.int ident := queryFirstById_id _ _ _ hq
    have hmem : r ∈ (runOps emptyStore ops₁).records := List.mem_of_find?_eq_some hq
    have hlt : ident < (runOps emptyStore ops₁).nextId := by
      obtain ⟨n, hn, hnlt⟩ := hinv.1 r hmem
      rw [hrid] at hn
      simp only [Value.int.injEq] at hn
      omega
    have hrm : (remove_person_record ident (runOps emptyStore ops₁)).1 =
        { runOps emptyStore ops₁ with
          records := removeFirstById (runOps emptyStore ops₁).records ident } := by
      rw [remove_person_record, hfetch]
    have habs : Value.int ident ∉
        (remove_person_record ident (runOps emptyStore ops₁)).1.records.map
          PersonRecord.id := by
      rw [hrm]
      exact not_mem_map_id_removeFirst _ ident hinv.2
    have hlt' : ident < (remove_person_record ident (runOps emptyStore ops₁)).1.nextId := by
      rw [remove_nextId]
      exact hlt
    obtain ⟨habs', hlt''⟩ := absent_id_stable
      (remove_person_record ident (runOps emptyStore ops₁)).1 ident ops₂ h₂ habs hlt'
    refine ⟨?_, habs'⟩
    rw [retrieve_person_record, fetch_person_record,
      queryFirst_none_of_not_mem _ _ habs']

/-- Concrete instance of `C8_delete_permanent`: create a row, delete it,
create another row; the deleted id 1 stays invisible to get and list. -/
theorem C8_delete_permanent_witness :
    noIdPatch [Operation.create demoInput] = true ∧
    noIdPatch [Operation.create demoInput2] = true ∧
    (remove_person_record 1 (runOps emptyStore [Operation.create demoInput])).2.status = 204 ∧
    retrieve_person_record 1
        (runOps (remove_person_record 1 (runOps emptyStore [Operation.create demoInput])).1
          [Operation.create demoInput2]) =
      { status := 404, body := Body.detail "Record not found" } :=
  ⟨by decide, by decide, by decide,
    (C8_delete_permanent [Operation.create demoInput] [Operation.create demoInput2] 1
      (by decide) (by decide) (by decide)).1⟩
